import Mathlib

/-!
Shallow embedding of the unsteady incompressible Navier-Stokes timestepping
example (src/main.cpp): the compile-time constants, the boundary-condition
functions, the degree-of-freedom layout produced by the sequential
assign_dofs calls, the weak-form term registration with symmetry tags, and
the main time loop.  The hermes2d library services that are outside the
repository (assembly internals, the external sparse solve, DOF numbering
internals) are modelled from the specification, with doc comments marking
each such definition.  Machine doubles are modelled as exact rationals.
-/

namespace NavierStokes

/-- Reynolds number (src/main.cpp line 32). -/
def RE : ℚ := 1000

/-- Inlet velocity, reached after STARTUP_TIME (line 33). -/
def VEL_INLET : ℚ := 1

/-- Ramp-up duration for the inlet velocity (line 34). -/
def STARTUP_TIME : ℚ := 1

/-- Time step (line 36). -/
def TAU : ℚ := 1 / 2

/-- Length of the time interval (line 37). -/
def FINAL_TIME : ℚ := 3000

/-- Polynomial degree for velocity components (line 38). -/
def P_INIT_VEL : ℕ := 2

/-- Polynomial degree for pressure (line 39). -/
def P_INIT_PRESSURE : ℕ := 1

/-- Domain height, used by the parabolic inlet profile (line 42). -/
def H : ℚ := 10

/-- Boundary marker of the bottom boundary (line 46). -/
def marker_bottom : ℤ := 1

/-- Boundary marker of the outlet (line 47). -/
def marker_right : ℤ := 2

/-- Boundary marker of the top boundary (line 48). -/
def marker_top : ℤ := 3

/-- Boundary marker of the inlet (line 49). -/
def marker_left : ℤ := 4

/-- Boundary marker of the obstacle (line 50). -/
def marker_obstacle : ℤ := 5

/-- Boundary-condition kind: essential (Dirichlet) or none ("do nothing"). -/
inductive BCKind
  | BC_NONE
  | BC_ESSENTIAL

/-- Boundary classification for the x-velocity (lines 56-59). -/
def xvel_bc_type (marker : ℤ) : BCKind :=
  if marker = marker_right then BCKind.BC_NONE else BCKind.BC_ESSENTIAL

/-- Boundary classification for the y-velocity (lines 61-64). -/
def yvel_bc_type (marker : ℤ) : BCKind :=
  if marker = marker_right then BCKind.BC_NONE else BCKind.BC_ESSENTIAL

/-- Boundary classification for the pressure (lines 66-67). -/
def press_bc_type (_marker : ℤ) : BCKind := BCKind.BC_NONE

/-- Essential x-velocity boundary value (lines 69-78).  The global mutable
TIME of the C code is passed as an explicit argument. -/
def xvel_bc_value (TIME : ℚ) (marker : ℤ) (_x y : ℚ) : ℚ :=
  if marker = marker_left then
    let val_y := VEL_INLET * y * (H - y) / (H / 2) / (H / 2)
    if TIME ≤ STARTUP_TIME then val_y * TIME / STARTUP_TIME else val_y
  else 0

/-- The steady inlet profile as written in the specification:
profile(y) = inlet_velocity * y * (H - y) / (H / 2)^2. -/
def inlet_profile (y : ℚ) : ℚ := VEL_INLET * y * (H - y) / (H / 2) ^ 2

/-- Modelled from the spec: a function space carries a DOF count and
assign_dofs(start) numbers its DOFs contiguously from the start index and
returns the count (section 4.1 of the spec); the DOF numbering internals
live in the hermes2d library, not in this repository.  A space is modelled
by its DOF count, and assign_dofs returns that count. -/
def assign_dofs (space _start : ℕ) : ℕ := space

/-- The DOF layout produced by the three sequential assign_dofs calls. -/
structure DofLayout where
  xstart : ℕ
  xcount : ℕ
  ystart : ℕ
  ycount : ℕ
  pstart : ℕ
  pcount : ℕ
  total : ℕ

/-- The sequential DOF assignment of src/main.cpp lines 153-156 (repeated at
lines 205-208): ndofs starts at 0 and each space is numbered from the
running total.  nx, ny, np are the DOF counts of the three spaces. -/
def mainAssignDofs (nx ny np : ℕ) : DofLayout :=
  let n0 : ℕ := 0
  let cx := assign_dofs nx n0
  let n1 := n0 + cx
  let cy := assign_dofs ny n1
  let n2 := n1 + cy
  let cp := assign_dofs np n2
  { xstart := n0, xcount := cx, ystart := n1, ycount := cy,
    pstart := n2, pcount := cp, total := n2 + cp }

/-- The set of global DOF indices of a field numbered from start. -/
def dofSet (start count : ℕ) : Finset ℕ := Finset.Ico start (start + count)

/-- Total dimension of the assembled linear system: the sum of the
per-field DOF counts (spec section 3, LinearSystem data contract). -/
def systemDim (nx ny np : ℕ) : ℕ := nx + ny + np

/-! ## Assembler model: weak-form terms with symmetry tags (claim C6)

The weak form of src/main.cpp lines 163-171 registers six bilinear terms
with tags SYM, UNSYM and ANTISYM.  The assembler behaviour for each tag is
modelled from the spec (section 4.3): symmetric terms compute one
triangular block and mirror it exactly; antisymmetric terms compute the
block and also write its exact negation into the transposed block;
contributions accumulate additively. -/

/-- Symmetry tag of a bilinear weak-form term (SYM / UNSYM / ANTISYM). -/
inductive SymTag
  | SYM
  | UNSYM
  | ANTISYM

/-- Global DOF offset of field f (0 = x-velocity, 1 = y-velocity,
2 = pressure), as produced by the sequential assign_dofs calls. -/
def fieldOff (nx ny : ℕ) : ℕ → ℕ
  | 0 => 0
  | 1 => nx
  | _ => nx + ny

/-- DOF count of field f. -/
def fieldSize (nx ny np : ℕ) : ℕ → ℕ
  | 0 => nx
  | 1 => ny
  | _ => np

/-- Modelled from the spec: the contribution of one kernel to global matrix
entry (I, J) for a term with row field r and column field c; the entry is
the kernel value at the local indices when (I, J) lies inside the (r, c)
block and 0 otherwise (scatter-add by DOF offsets, spec section 4.3). -/
def blockVal (nx ny np r c : ℕ) (k : ℕ → ℕ → ℚ) (I J : ℕ) : ℚ :=
  if fieldOff nx ny r ≤ I ∧ I < fieldOff nx ny r + fieldSize nx ny np r ∧
     fieldOff nx ny c ≤ J ∧ J < fieldOff nx ny c + fieldSize nx ny np c
  then k (I - fieldOff nx ny r) (J - fieldOff nx ny c) else 0

/-- Modelled from the spec: the global-matrix contribution of one tagged
bilinear term.  A SYM term computes the lower-index triangle and mirrors it
exactly; an UNSYM term computes the whole block; an ANTISYM term computes
the block and also writes the exact negation of its transpose into the
mirrored (c, r) block (spec sections 3 and 4.3). -/
def termEntry (nx ny np : ℕ) (tag : SymTag) (r c : ℕ) (k : ℕ → ℕ → ℚ)
    (I J : ℕ) : ℚ :=
  match tag with
  | SymTag.SYM =>
      blockVal nx ny np r c (fun i j => if i ≤ j then k i j else k j i) I J
  | SymTag.UNSYM => blockVal nx ny np r c k I J
  | SymTag.ANTISYM =>
      blockVal nx ny np r c k I J +
      blockVal nx ny np c r (fun p q => -(k q p)) I J

/-- Entry (I, J) of the assembled global matrix for the weak form registered
in src/main.cpp lines 164-169: additively accumulated contributions of the
six bilinear terms, where ks is the symmetric viscous+mass kernel, ku the
unsymmetric convective kernel, and b02, b12 the antisymmetric
velocity-pressure coupling kernels. -/
def assembledEntry (nx ny np : ℕ) (ks ku b02 b12 : ℕ → ℕ → ℚ) (I J : ℕ) : ℚ :=
  termEntry nx ny np SymTag.SYM 0 0 ks I J +
  termEntry nx ny np SymTag.UNSYM 0 0 ku I J +
  termEntry nx ny np SymTag.SYM 1 1 ks I J +
  termEntry nx ny np SymTag.UNSYM 1 1 ku I J +
  termEntry nx ny np SymTag.ANTISYM 0 2 b02 I J +
  termEntry nx ny np SymTag.ANTISYM 1 2 b12 I J

/-- A demonstration kernel used only to instantiate universally quantified
theorems at a concrete input. -/
def kdemo : ℕ → ℕ → ℚ := fun i j => (i : ℚ) + 2 * (j : ℚ) + 1

/-! ## Time loop model (claims C2, C3, C4, C7, C8, C9)

The main loop of src/main.cpp lines 196-260.  Per iteration: TIME += TAU
(line 200); DOFs are reassigned, which recomputes the time-dependent
boundary values (lines 205-208); the system is assembled reading the
previous-step velocities xprev, yprev as the frozen linearization anchor of
the convective term (line 213, via the dependencies registered at lines
165/167/170/171); the external solve produces a flat vector (line 227)
which is decoded into the three fields (lines 230-232); finally the
previous fields are replaced by the current ones (lines 258-259).
The library-side services are modelled from the spec as an Externals
record; the loop structure itself is translated from the source. -/

/-- Modelled from the spec: the external services consumed by one time step.
matOf is the assembled matrix as a function of the current time and of the
frozen previous-step velocity anchors (None models an AssemblyError);
Mx, My are the mass pairings that make the linear forms of src/main.cpp
lines 96-100 linear in the previous-step coefficients; lift is the
essential-boundary (Dirichlet) contribution to the right-hand side at a
given time; solver is the external linear solve (None models a SolveError). -/
structure Externals (nx ny np : ℕ) where
  matOf : ℚ → (Fin nx → ℚ) → (Fin ny → ℚ) →
    Option (Matrix (Fin (systemDim nx ny np)) (Fin (systemDim nx ny np)) ℚ)
  Mx : Matrix (Fin (systemDim nx ny np)) (Fin nx) ℚ
  My : Matrix (Fin (systemDim nx ny np)) (Fin ny) ℚ
  lift : ℚ → Fin (systemDim nx ny np) → ℚ
  solver : Matrix (Fin (systemDim nx ny np)) (Fin (systemDim nx ny np)) ℚ →
    (Fin (systemDim nx ny np) → ℚ) → Option (Fin (systemDim nx ny np) → ℚ)

/-- The assembled right-hand side: the linear forms of src/main.cpp lines
96-100 contribute int_u_v(prev, v)/TAU, linear in the previous-step
coefficients, plus the Dirichlet lifting at the current time. -/
def rhsOf {nx ny np : ℕ} (E : Externals nx ny np) (tau t : ℚ)
    (xp : Fin nx → ℚ) (yp : Fin ny → ℚ) : Fin (systemDim nx ny np) → ℚ :=
  (1 / tau) • (E.Mx.mulVec xp + E.My.mulVec yp) + E.lift t

/-- Decode the x-velocity coefficient window from the flat solution vector
(src/main.cpp line 230): the first nx entries. -/
def decodeX {nx ny np : ℕ} (X : Fin (systemDim nx ny np) → ℚ) : Fin nx → ℚ :=
  fun i => X ⟨i.1, by have hi := i.2; simp only [systemDim]; omega⟩

/-- Decode the y-velocity coefficient window (line 231): entries
nx .. nx+ny-1. -/
def decodeY {nx ny np : ℕ} (X : Fin (systemDim nx ny np) → ℚ) : Fin ny → ℚ :=
  fun j => X ⟨nx + j.1, by have hj := j.2; simp only [systemDim]; omega⟩

/-- Decode the pressure coefficient window (line 232): entries
nx+ny .. nx+ny+np-1. -/
def decodeP {nx ny np : ℕ} (X : Fin (systemDim nx ny np) → ℚ) : Fin np → ℚ :=
  fun k => X ⟨nx + ny + k.1, by have hk := k.2; simp only [systemDim]; omega⟩

/-- The state that crosses iteration boundaries: the global TIME, the
previous-step velocity fields, and counters of assemble calls, solve calls
and decoded fields. -/
structure SimState (nx ny np : ℕ) where
  time : ℚ
  xprev : Fin nx → ℚ
  yprev : Fin ny → ℚ
  nAssemble : ℕ
  nSolve : ℕ
  nDecode : ℕ

/-- What one successful iteration did: the time seen by the boundary-value
recomputation and by the assembly, the anchor fields read by the convective
term, the assembled right-hand side, and the three decoded fields. -/
structure StepRecord (nx ny np : ℕ) where
  timeAtBC : ℚ
  timeAtAssemble : ℚ
  anchorX : Fin nx → ℚ
  anchorY : Fin ny → ℚ
  rhs : Fin (systemDim nx ny np) → ℚ
  xsln : Fin nx → ℚ
  ysln : Fin ny → ℚ
  psln : Fin np → ℚ

/-- The state before the loop: TIME = 0 (line 53), xprev and yprev set to
zero (lines 159-160), no work done yet. -/
def initState (nx ny np : ℕ) : SimState nx ny np :=
  { time := 0, xprev := fun _ => 0, yprev := fun _ => 0,
    nAssemble := 0, nSolve := 0, nDecode := 0 }

/-- One iteration of the main loop (lines 198-260): advance time first,
then assemble at the new time reading the previous fields as anchors, then
solve and decode; a failing assembly or solve yields none. -/
def step {nx ny np : ℕ} (E : Externals nx ny np) (tau : ℚ)
    (s : SimState nx ny np) :
    Option (SimState nx ny np × StepRecord nx ny np) :=
  match E.matOf (s.time + tau) s.xprev s.yprev with
  | none => none
  | some A =>
    match E.solver A (rhsOf E tau (s.time + tau) s.xprev s.yprev) with
    | none => none
    | some X =>
      some ({ time := s.time + tau, xprev := decodeX X, yprev := decodeY X,
              nAssemble := s.nAssemble + 1, nSolve := s.nSolve + 1,
              nDecode := s.nDecode + 3 },
            { timeAtBC := s.time + tau, timeAtAssemble := s.time + tau,
              anchorX := s.xprev, anchorY := s.yprev,
              rhs := rhsOf E tau (s.time + tau) s.xprev s.yprev,
              xsln := decodeX X, ysln := decodeY X, psln := decodeP X })

/-- Modelled from the spec: the terminal states of the time stepper, DONE
after the full iteration count and FAILED on the first assembly or solve
error, carrying the reported last successfully completed time, the final
state and the list of completed step records (spec sections 4.4 and 7). -/
inductive RunResult (nx ny np : ℕ)
  | DONE : SimState nx ny np → List (StepRecord nx ny np) → RunResult nx ny np
  | FAILED : ℚ → SimState nx ny np → List (StepRecord nx ny np) →
      RunResult nx ny np

/-- The list of completed step records of a run. -/
def RunResult.log {nx ny np : ℕ} : RunResult nx ny np → List (StepRecord nx ny np)
  | RunResult.DONE _ l => l
  | RunResult.FAILED _ _ l => l

/-- Prepend a step record to the log of a result. -/
def consRecord {nx ny np : ℕ} (r : StepRecord nx ny np) :
    RunResult nx ny np → RunResult nx ny np
  | RunResult.DONE s l => RunResult.DONE s (r :: l)
  | RunResult.FAILED t s l => RunResult.FAILED t s (r :: l)

/-- Run the main loop for a fixed number of iterations; on a failing step
the loop aborts without retry, reporting the time of the state before the
failing step (the last successfully completed time). -/
def runLoop {nx ny np : ℕ} (E : Externals nx ny np) (tau : ℚ) :
    ℕ → SimState nx ny np → RunResult nx ny np
  | 0, s => RunResult.DONE s []
  | Nat.succ k, s =>
    match step E tau s with
    | none => RunResult.FAILED s.time s []
    | some (s2, r) => consRecord r (runLoop E tau k s2)

/-- The last element of a list, or the default when the list is empty. -/
def lastD {α : Type} : List α → α → α
  | [], d => d
  | a :: l, _ => lastD l a

/-- Conversion of a double to a C int: truncation toward zero. -/
def cIntOfDouble (q : ℚ) : ℤ := if 0 ≤ q then ⌊q⌋ else ⌈q⌉

/-- src/main.cpp line 197: int num_time_steps = FINAL_TIME / TAU; the
double quotient is truncated toward zero by the int conversion. -/
def num_time_steps (finalTime tau : ℚ) : ℤ := cIntOfDouble (finalTime / tau)

/-- The whole main loop for given final time and step size (lines 197-260),
starting from the initial rest state. -/
def runFor {nx ny np : ℕ} (E : Externals nx ny np) (tau finalTime : ℚ) :
    RunResult nx ny np :=
  runLoop E tau (num_time_steps finalTime tau).toNat (initState nx ny np)

/-- The run of src/main.cpp itself, with the compile-time constants. -/
def mainRun {nx ny np : ℕ} (E : Externals nx ny np) : RunResult nx ny np :=
  runFor E TAU FINAL_TIME

/-! ## CSC extraction (claim C8)

src/main.cpp lines 216-226 extract the assembled matrix as compressed
sparse column arrays Ap (column pointers), Ai (row indices), Ax (values)
and hand them to the external solve. -/

/-- The nonzero entries of column j, in increasing row order. -/
def cscColumn (dim : ℕ) (M : ℕ → ℕ → ℚ) (j : ℕ) : List (ℕ × ℚ) :=
  (List.range dim).filterMap
    (fun i => if M i j = 0 then none else some (i, M i j))

/-- Compressed sparse column encoding of a dim × dim matrix: the column
pointer array, the row index array and the value array. -/
def cscOf (dim : ℕ) (M : ℕ → ℕ → ℚ) : List ℕ × List ℕ × List ℚ :=
  (((List.range dim).map (fun j => (cscColumn dim M j).length)).scanl
     (fun a b => a + b) 0,
   ((List.range dim).map (fun j => cscColumn dim M j)).flatten.map
     (fun e => e.1),
   ((List.range dim).map (fun j => cscColumn dim M j)).flatten.map
     (fun e => e.2))

/-- Entry lookup of a square Fin-indexed matrix at natural indices. -/
def matEntry {n : ℕ} (M : Matrix (Fin n) (Fin n) ℚ) (i j : ℕ) : ℚ :=
  if h : i < n ∧ j < n then M ⟨i, h.1⟩ ⟨j, h.2⟩ else 0

/-- One run of the assembly at the current state: the CSC arrays of the
assembled matrix (when assembly succeeds) and the right-hand side, as a
function of the global time and the previous-step fields only. -/
def assembleCSC {nx ny np : ℕ} (E : Externals nx ny np) (tau : ℚ)
    (s : SimState nx ny np) :
    Option (List ℕ × List ℕ × List ℚ) × (Fin (systemDim nx ny np) → ℚ) :=
  ((E.matOf s.time s.xprev s.yprev).map
     (fun A => cscOf (systemDim nx ny np) (matEntry A)),
   rhsOf E tau s.time s.xprev s.yprev)

/-! ## Concrete instances used to instantiate quantified theorems -/

/-- A trivial external-services instance on zero-dimensional spaces whose
assembly and solve always succeed. -/
def trivialExternals : Externals 0 0 0 where
  matOf := fun _ _ _ => some (Matrix.of fun _ _ => 0)
  Mx := Matrix.of fun _ _ => 0
  My := Matrix.of fun _ _ => 0
  lift := fun _ => fun _ => 0
  solver := fun _ b => some b

/-- An external-services instance whose solve always fails. -/
def failingExternals : Externals 0 0 0 where
  matOf := fun _ _ _ => some (Matrix.of fun _ _ => 0)
  Mx := Matrix.of fun _ _ => 0
  My := Matrix.of fun _ _ => 0
  lift := fun _ => fun _ => 0
  solver := fun _ _ => none

/-- A concrete loop state (counters at zero). -/
def stateA : SimState 0 0 0 :=
  { time := 1, xprev := fun _ => 0, yprev := fun _ => 0,
    nAssemble := 0, nSolve := 0, nDecode := 0 }

/-- The same inputs as stateA but different counters. -/
def stateB : SimState 0 0 0 :=
  { time := 1, xprev := fun _ => 0, yprev := fun _ => 0,
    nAssemble := 7, nSolve := 7, nDecode := 21 }

/-! ## Helper lemmas -/

theorem blockVal_mem {nx ny np r c : ℕ} {k : ℕ → ℕ → ℚ} {I J : ℕ}
    (h1 : fieldOff nx ny r ≤ I)
    (h2 : I < fieldOff nx ny r + fieldSize nx ny np r)
    (h3 : fieldOff nx ny c ≤ J)
    (h4 : J < fieldOff nx ny c + fieldSize nx ny np c) :
    blockVal nx ny np r c k I J =
      k (I - fieldOff nx ny r) (J - fieldOff nx ny c) :=
  if_pos ⟨h1, h2, h3, h4⟩

theorem blockVal_notRow {nx ny np r c : ℕ} {k : ℕ → ℕ → ℚ} {I J : ℕ}
    (h : I < fieldOff nx ny r ∨ fieldOff nx ny r + fieldSize nx ny np r ≤ I) :
    blockVal nx ny np r c k I J = 0 :=
  if_neg (by intro hc; rcases h with h | h <;> omega)

theorem blockVal_notCol {nx ny np r c : ℕ} {k : ℕ → ℕ → ℚ} {I J : ℕ}
    (h : J < fieldOff nx ny c ∨ fieldOff nx ny c + fieldSize nx ny np c ≤ J) :
    blockVal nx ny np r c k I J = 0 :=
  if_neg (by intro hc; rcases h with h | h <;> omega)

theorem fieldOff_0 (nx ny : ℕ) : fieldOff nx ny 0 = 0 := rfl

theorem fieldOff_1 (nx ny : ℕ) : fieldOff nx ny 1 = nx := rfl

theorem fieldOff_2 (nx ny : ℕ) : fieldOff nx ny 2 = nx + ny := rfl

theorem fieldSize_0 (nx ny np : ℕ) : fieldSize nx ny np 0 = nx := rfl

theorem fieldSize_1 (nx ny np : ℕ) : fieldSize nx ny np 1 = ny := rfl

theorem fieldSize_2 (nx ny np : ℕ) : fieldSize nx ny np 2 = np := rfl

theorem termEntry_SYM_eq (nx ny np r c : ℕ) (k : ℕ → ℕ → ℚ) (I J : ℕ) :
    termEntry nx ny np SymTag.SYM r c k I J =
      blockVal nx ny np r c (fun i j => if i ≤ j then k i j else k j i) I J :=
  rfl

theorem termEntry_UNSYM_eq (nx ny np r c : ℕ) (k : ℕ → ℕ → ℚ) (I J : ℕ) :
    termEntry nx ny np SymTag.UNSYM r c k I J = blockVal nx ny np r c k I J :=
  rfl

theorem termEntry_ANTISYM_eq (nx ny np r c : ℕ) (k : ℕ → ℕ → ℚ) (I J : ℕ) :
    termEntry nx ny np SymTag.ANTISYM r c k I J =
      blockVal nx ny np r c k I J +
        blockVal nx ny np c r (fun p q => -(k q p)) I J :=
  rfl

theorem termEntry_sym_symm (nx ny np f : ℕ) (k : ℕ → ℕ → ℚ) (I J : ℕ) :
    termEntry nx ny np SymTag.SYM f f k I J =
      termEntry nx ny np SymTag.SYM f f k J I := by
  rw [termEntry_SYM_eq, termEntry_SYM_eq]
  unfold blockVal
  by_cases h : fieldOff nx ny f ≤ I ∧
      I < fieldOff nx ny f + fieldSize nx ny np f ∧
      fieldOff nx ny f ≤ J ∧ J < fieldOff nx ny f + fieldSize nx ny np f
  · rw [if_pos h, if_pos ⟨h.2.2.1, h.2.2.2, h.1, h.2.1⟩]
    show (if I - fieldOff nx ny f ≤ J - fieldOff nx ny f
          then k (I - fieldOff nx ny f) (J - fieldOff nx ny f)
          else k (J - fieldOff nx ny f) (I - fieldOff nx ny f)) =
        (if J - fieldOff nx ny f ≤ I - fieldOff nx ny f
          then k (J - fieldOff nx ny f) (I - fieldOff nx ny f)
          else k (I - fieldOff nx ny f) (J - fieldOff nx ny f))
    by_cases hij : I - fieldOff nx ny f ≤ J - fieldOff nx ny f
    · rw [if_pos hij]
      by_cases hji : J - fieldOff nx ny f ≤ I - fieldOff nx ny f
      · rw [if_pos hji, Nat.le_antisymm hij hji]
      · rw [if_neg hji]
    · rw [if_neg hij, if_pos (le_of_not_le hij)]
  · rw [if_neg h, if_neg (fun hc => h ⟨hc.2.2.1, hc.2.2.2, hc.1, hc.2.1⟩)]

/-! ## Claim theorems: boundary values and DOF layout -/

/-- Claim C1: for every time t and coordinate (x, y), the essential
x-velocity value at the inlet marker equals
profile(y) * min(1, t / ramp_time) with
profile(y) = inlet_velocity * y * (H - y) / (H / 2)^2; with the source
constants, at t = 1/2 and y = 5 the value is 1/2, and for every t ≥ 1 the
value equals profile(y). -/
theorem c1_inlet_ramp :
    (∀ t x y : ℚ,
        xvel_bc_value t marker_left x y =
          inlet_profile y * min 1 (t / STARTUP_TIME)) ∧
    xvel_bc_value (1 / 2) marker_left 0 5 = 1 / 2 ∧
    (∀ t x y : ℚ, 1 ≤ t →
        xvel_bc_value t marker_left x y = inlet_profile y) := by
  have hS : (0 : ℚ) < STARTUP_TIME := by norm_num [STARTUP_TIME]
  refine ⟨?_, ?_, ?_⟩
  · intro t x y
    unfold xvel_bc_value inlet_profile
    rw [if_pos rfl]
    simp only []
    by_cases h : t ≤ STARTUP_TIME
    · rw [if_pos h, min_eq_right ((div_le_one hS).mpr h)]
      ring
    · rw [if_neg h,
          min_eq_left (le_of_lt ((one_lt_div hS).mpr (lt_of_not_le h)))]
      ring
  · norm_num [xvel_bc_value, marker_left, VEL_INLET, H, STARTUP_TIME]
  · intro t x y ht
    unfold xvel_bc_value inlet_profile
    rw [if_pos rfl]
    simp only []
    by_cases h : t ≤ STARTUP_TIME
    · have ht1 : t = 1 := le_antisymm (by norm_num [STARTUP_TIME] at h; exact h) ht
      rw [if_pos h, ht1]
      norm_num [STARTUP_TIME]
      ring
    · rw [if_neg h]
      ring

/-- Witness for C1: the ramp saturates, so at t = 2 ≥ 1 the inlet value is
the steady profile. -/
theorem c1_inlet_ramp_witness :
    xvel_bc_value 2 marker_left 0 5 = inlet_profile 5 :=
  c1_inlet_ramp.2.2 2 0 5 (by norm_num)

/-- Claim C10: for every boundary marker other than the inlet marker and for
every time and coordinate, the essential x-velocity boundary value is
exactly 0 (no-slip on bottom, top and obstacle at all times, including
during ramp-up). -/
theorem c10_noslip_zero (marker : ℤ) (t x y : ℚ) (h : marker ≠ marker_left) :
    xvel_bc_value t marker x y = 0 := by
  unfold xvel_bc_value
  rw [if_neg h]

/-- Witness for C10: the obstacle marker gets value 0. -/
theorem c10_noslip_zero_witness : xvel_bc_value 3 marker_obstacle 1 2 = 0 :=
  c10_noslip_zero marker_obstacle 3 1 2 (by decide)

/-- Claim C5: for every combination of per-field DOF counts, the sequential
assign_dofs calls produce pairwise disjoint and contiguous DOF ranges
(each field starts where the previous one ended) and their total equals the
dimension of the assembled matrix and right-hand side. -/
theorem c5_dof_layout (nx ny np : ℕ) :
    Disjoint
      (dofSet (mainAssignDofs nx ny np).xstart (mainAssignDofs nx ny np).xcount)
      (dofSet (mainAssignDofs nx ny np).ystart (mainAssignDofs nx ny np).ycount) ∧
    Disjoint
      (dofSet (mainAssignDofs nx ny np).xstart (mainAssignDofs nx ny np).xcount)
      (dofSet (mainAssignDofs nx ny np).pstart (mainAssignDofs nx ny np).pcount) ∧
    Disjoint
      (dofSet (mainAssignDofs nx ny np).ystart (mainAssignDofs nx ny np).ycount)
      (dofSet (mainAssignDofs nx ny np).pstart (mainAssignDofs nx ny np).pcount) ∧
    (mainAssignDofs nx ny np).xstart = 0 ∧
    (mainAssignDofs nx ny np).ystart =
      (mainAssignDofs nx ny np).xstart + (mainAssignDofs nx ny np).xcount ∧
    (mainAssignDofs nx ny np).pstart =
      (mainAssignDofs nx ny np).ystart + (mainAssignDofs nx ny np).ycount ∧
    (mainAssignDofs nx ny np).total =
      (mainAssignDofs nx ny np).xcount + (mainAssignDofs nx ny np).ycount +
        (mainAssignDofs nx ny np).pcount ∧
    (mainAssignDofs nx ny np).total = systemDim nx ny np ∧
    Fintype.card (Fin (systemDim nx ny np)) = (mainAssignDofs nx ny np).total := by
  refine ⟨?_, ?_, ?_, ?_, ?_, ?_, ?_, ?_, ?_⟩ <;>
    simp only [mainAssignDofs, assign_dofs, dofSet, systemDim,
      Finset.disjoint_left, Finset.mem_Ico, Fintype.card_fin] <;>
    omega

/-- Claim C6: in the assembled global matrix of the registered weak form,
every SYM-tagged term contributes equal entries at (i, j) and (j, i) inside
its block, and for the ANTISYM-tagged velocity-pressure coupling terms
(0,2) and (1,2) the mirrored global block equals the exact negation of the
computed block. -/
theorem c6_symmetry_tags (nx ny np : ℕ) (ks ku b02 b12 : ℕ → ℕ → ℚ) :
    (∀ I J, termEntry nx ny np SymTag.SYM 0 0 ks I J =
        termEntry nx ny np SymTag.SYM 0 0 ks J I) ∧
    (∀ I J, termEntry nx ny np SymTag.SYM 1 1 ks I J =
        termEntry nx ny np SymTag.SYM 1 1 ks J I) ∧
    (∀ i j, i < nx → j < np →
        assembledEntry nx ny np ks ku b02 b12 (nx + ny + j) i =
          -(assembledEntry nx ny np ks ku b02 b12 i (nx + ny + j))) ∧
    (∀ i j, i < ny → j < np →
        assembledEntry nx ny np ks ku b02 b12 (nx + ny + j) (nx + i) =
          -(assembledEntry nx ny np ks ku b02 b12 (nx + i) (nx + ny + j))) := by
  refine ⟨fun I J => termEntry_sym_symm nx ny np 0 ks I J,
          fun I J => termEntry_sym_symm nx ny np 1 ks I J, ?_, ?_⟩
  · intro i j hi hj
    have a1 : blockVal nx ny np 0 0
        (fun a b => if a ≤ b then ks a b else ks b a) (nx + ny + j) i = 0 :=
      blockVal_notRow (Or.inr (by rw [fieldOff_0, fieldSize_0]; omega))
    have a2 : blockVal nx ny np 0 0 ku (nx + ny + j) i = 0 :=
      blockVal_notRow (Or.inr (by rw [fieldOff_0, fieldSize_0]; omega))
    have a3 : blockVal nx ny np 1 1
        (fun a b => if a ≤ b then ks a b else ks b a) (nx + ny + j) i = 0 :=
      blockVal_notRow (Or.inr (by rw [fieldOff_1, fieldSize_1]; omega))
    have a4 : blockVal nx ny np 1 1 ku (nx + ny + j) i = 0 :=
      blockVal_notRow (Or.inr (by rw [fieldOff_1, fieldSize_1]; omega))
    have a5 : blockVal nx ny np 0 2 b02 (nx + ny + j) i = 0 :=
      blockVal_notRow (Or.inr (by rw [fieldOff_0, fieldSize_0]; omega))
    have a6 : blockVal nx ny np 2 0 (fun p q => -(b02 q p)) (nx + ny + j) i =
        -(b02 i j) := by
      rw [blockVal_mem (by rw [fieldOff_2]; omega)
            (by rw [fieldOff_2, fieldSize_2]; omega)
            (by rw [fieldOff_0]; omega)
            (by rw [fieldOff_0, fieldSize_0]; omega)]
      have e1 : nx + ny + j - (nx + ny) = j := by omega
      simp only [fieldOff_2, fieldOff_0, e1, Nat.sub_zero]
    have a7 : blockVal nx ny np 1 2 b12 (nx + ny + j) i = 0 :=
      blockVal_notRow (Or.inr (by rw [fieldOff_1, fieldSize_1]; omega))
    have a8 : blockVal nx ny np 2 1 (fun p q => -(b12 q p)) (nx + ny + j) i
        = 0 :=
      blockVal_notCol (Or.inl (by rw [fieldOff_1]; omega))
    have b1 : blockVal nx ny np 0 0
        (fun a b => if a ≤ b then ks a b else ks b a) i (nx + ny + j) = 0 :=
      blockVal_notCol (Or.inr (by rw [fieldOff_0, fieldSize_0]; omega))
    have b2 : blockVal nx ny np 0 0 ku i (nx + ny + j) = 0 :=
      blockVal_notCol (Or.inr (by rw [fieldOff_0, fieldSize_0]; omega))
    have b3 : blockVal nx ny np 1 1
        (fun a b => if a ≤ b then ks a b else ks b a) i (nx + ny + j) = 0 :=
      blockVal_notCol (Or.inr (by rw [fieldOff_1, fieldSize_1]; omega))
    have b4 : blockVal nx ny np 1 1 ku i (nx + ny + j) = 0 :=
      blockVal_notCol (Or.inr (by rw [fieldOff_1, fieldSize_1]; omega))
    have b5 : blockVal nx ny np 0 2 b02 i (nx + ny + j) = b02 i j := by
      rw [blockVal_mem (by rw [fieldOff_0]; omega)
            (by rw [fieldOff_0, fieldSize_0]; omega)
            (by rw [fieldOff_2]; omega)
            (by rw [fieldOff_2, fieldSize_2]; omega)]
      have e1 : nx + ny + j - (nx + ny) = j := by omega
      simp only [fieldOff_2, fieldOff_0, e1, Nat.sub_zero]
    have b6 : blockVal nx ny np 2 0 (fun p q => -(b02 q p)) i (nx + ny + j)
        = 0 :=
      blockVal_notRow (Or.inl (by rw [fieldOff_2]; omega))
    have b7 : blockVal nx ny np 1 2 b12 i (nx + ny + j) = 0 :=
      blockVal_notRow (Or.inl (by rw [fieldOff_1]; omega))
    have b8 : blockVal nx ny np 2 1 (fun p q => -(b12 q p)) i (nx + ny + j)
        = 0 :=
      blockVal_notRow (Or.inl (by rw [fieldOff_2]; omega))
    simp only [assembledEntry, termEntry_SYM_eq, termEntry_UNSYM_eq,
      termEntry_ANTISYM_eq]
    rw [a1, a2, a3, a4, a5, a6, a7, a8, b1, b2, b3, b4, b5, b6, b7, b8]
    ring
  · intro i j hi hj
    have a1 : blockVal nx ny np 0 0
        (fun a b => if a ≤ b then ks a b else ks b a) (nx + ny + j) (nx + i)
        = 0 :=
      blockVal_notRow (Or.inr (by rw [fieldOff_0, fieldSize_0]; omega))
    have a2 : blockVal nx ny np 0 0 ku (nx + ny + j) (nx + i) = 0 :=
      blockVal_notRow (Or.inr (by rw [fieldOff_0, fieldSize_0]; omega))
    have a3 : blockVal nx ny np 1 1
        (fun a b => if a ≤ b then ks a b else ks b a) (nx + ny + j) (nx + i)
        = 0 :=
      blockVal_notRow (Or.inr (by rw [fieldOff_1, fieldSize_1]; omega))
    have a4 : blockVal nx ny np 1 1 ku (nx + ny + j) (nx + i) = 0 :=
      blockVal_notRow (Or.inr (by rw [fieldOff_1, fieldSize_1]; omega))
    have a5 : blockVal nx ny np 0 2 b02 (nx + ny + j) (nx + i) = 0 :=
      blockVal_notRow (Or.inr (by rw [fieldOff_0, fieldSize_0]; omega))
    have a6 : blockVal nx ny np 2 0 (fun p q => -(b02 q p)) (nx + ny + j)
        (nx + i) = 0 :=
      blockVal_notCol (Or.inr (by rw [fieldOff_0, fieldSize_0]; omega))
    have a7 : blockVal nx ny np 1 2 b12 (nx + ny + j) (nx + i) = 0 :=
      blockVal_notRow (Or.inr (by rw [fieldOff_1, fieldSize_1]; omega))
    have a8 : blockVal nx ny np 2 1 (fun p q => -(b12 q p)) (nx + ny + j)
        (nx + i) = -(b12 i j) := by
      rw [blockVal_mem (by rw [fieldOff_2]; omega)
            (by rw [fieldOff_2, fieldSize_2]; omega)
            (by rw [fieldOff_1]; omega)
            (by rw [fieldOff_1, fieldSize_1]; omega)]
      have e1 : nx + ny + j - (nx + ny) = j := by omega
      have e2 : nx + i - nx = i := by omega
      simp only [fieldOff_2, fieldOff_1, e1, e2]
    have b1 : blockVal nx ny np 0 0
        (fun a b => if a ≤ b then ks a b else ks b a) (nx + i) (nx + ny + j)
        = 0 :=
      blockVal_notRow (Or.inr (by rw [fieldOff_0, fieldSize_0]; omega))
    have b2 : blockVal nx ny np 0 0 ku (nx + i) (nx + ny + j) = 0 :=
      blockVal_notRow (Or.inr (by rw [fieldOff_0, fieldSize_0]; omega))
    have b3 : blockVal nx ny np 1 1
        (fun a b => if a ≤ b then ks a b else ks b a) (nx + i) (nx + ny + j)
        = 0 :=
      blockVal_notCol (Or.inr (by rw [fieldOff_1, fieldSize_1]; omega))
    have b4 : blockVal nx ny np 1 1 ku (nx + i) (nx + ny + j) = 0 :=
      blockVal_notCol (Or.inr (by rw [fieldOff_1, fieldSize_1]; omega))
    have b5 : blockVal nx ny np 0 2 b02 (nx + i) (nx + ny + j) = 0 :=
      blockVal_notRow (Or.inr (by rw [fieldOff_0, fieldSize_0]; omega))
    have b6 : blockVal nx ny np 2 0 (fun p q => -(b02 q p)) (nx + i)
        (nx + ny + j) = 0 :=
      blockVal_notRow (Or.inl (by rw [fieldOff_2]; omega))
    have b7 : blockVal nx ny np 1 2 b12 (nx + i) (nx + ny + j) = b12 i j := by
      rw [blockVal_mem (by rw [fieldOff_1]; omega)
            (by rw [fieldOff_1, fieldSize_1]; omega)
            (by rw [fieldOff_2]; omega)
            (by rw [fieldOff_2, fieldSize_2]; omega)]
      have e1 : nx + ny + j - (nx + ny) = j := by omega
      have e2 : nx + i - nx = i := by omega
      simp only [fieldOff_2, fieldOff_1, e1, e2]
    have b8 : blockVal nx ny np 2 1 (fun p q => -(b12 q p)) (nx + i)
        (nx + ny + j) = 0 :=
      blockVal_notRow (Or.inl (by rw [fieldOff_2]; omega))
    simp only [assembledEntry, termEntry_SYM_eq, termEntry_UNSYM_eq,
      termEntry_ANTISYM_eq]
    rw [a1, a2, a3, a4, a5, a6, a7, a8, b1, b2, b3, b4, b5, b6, b7, b8]
    ring

/-- Witness for C6: the antisymmetric mirroring at a concrete index of the
assembled matrix with unit field sizes and a concrete kernel. -/
theorem c6_symmetry_tags_witness :
    assembledEntry 1 1 1 kdemo kdemo kdemo kdemo 2 0 =
      -(assembledEntry 1 1 1 kdemo kdemo kdemo kdemo 0 2) :=
  (c6_symmetry_tags 1 1 1 kdemo kdemo kdemo kdemo).2.2.1 0 0 (by norm_num)
    (by norm_num)

/-! ## Time loop lemmas -/

theorem consRecord_log {nx ny np : ℕ} (r : StepRecord nx ny np)
    (R : RunResult nx ny np) : (consRecord r R).log = r :: R.log := by
  cases R <;> rfl

theorem step_some_spec {nx ny np : ℕ} (E : Externals nx ny np) (tau : ℚ)
    (s s2 : SimState nx ny np) (r : StepRecord nx ny np)
    (h : step E tau s = some (s2, r)) :
    r.timeAtBC = s.time + tau ∧ r.timeAtAssemble = s.time + tau ∧
    r.anchorX = s.xprev ∧ r.anchorY = s.yprev ∧
    r.rhs = rhsOf E tau (s.time + tau) s.xprev s.yprev ∧
    s2.time = s.time + tau ∧ s2.xprev = r.xsln ∧ s2.yprev = r.ysln ∧
    s2.nAssemble = s.nAssemble + 1 ∧ s2.nSolve = s.nSolve + 1 ∧
    s2.nDecode = s.nDecode + 3 := by
  cases hA : E.matOf (s.time + tau) s.xprev s.yprev with
  | none => simp only [step, hA] at h; exact Option.noConfusion h
  | some A =>
    cases hB : E.solver A (rhsOf E tau (s.time + tau) s.xprev s.yprev) with
    | none => simp only [step, hA, hB] at h; exact Option.noConfusion h
    | some X =>
      simp only [step, hA, hB, Option.some.injEq, Prod.mk.injEq] at h
      obtain ⟨h1, h2⟩ := h
      subst h1
      subst h2
      exact ⟨rfl, rfl, rfl, rfl, rfl, rfl, rfl, rfl, rfl, rfl, rfl⟩

theorem step_isSome {nx ny np : ℕ} (E : Externals nx ny np) (tau : ℚ)
    (s : SimState nx ny np)
    (hm : ∀ t xp yp, E.matOf t xp yp ≠ none)
    (hs : ∀ A b, E.solver A b ≠ none) :
    (step E tau s).isSome := by
  cases hA : E.matOf (s.time + tau) s.xprev s.yprev with
  | none => exact absurd hA (hm _ _ _)
  | some A =>
    cases hB : E.solver A (rhsOf E tau (s.time + tau) s.xprev s.yprev) with
    | none => exact absurd hB (hs _ _)
    | some X => simp only [step, hA, hB, Option.isSome_some]

theorem runLoop_succ_none {nx ny np : ℕ} (E : Externals nx ny np) (tau : ℚ)
    (k : ℕ) (s : SimState nx ny np) (h : step E tau s = none) :
    runLoop E tau (k + 1) s = RunResult.FAILED s.time s [] := by
  simp only [runLoop, h]

theorem runLoop_succ_some {nx ny np : ℕ} (E : Externals nx ny np) (tau : ℚ)
    (k : ℕ) (s s2 : SimState nx ny np) (r : StepRecord nx ny np)
    (h : step E tau s = some (s2, r)) :
    runLoop E tau (k + 1) s = consRecord r (runLoop E tau k s2) := by
  simp only [runLoop, h]

theorem runLoop_success {nx ny np : ℕ} (E : Externals nx ny np) (tau : ℚ)
    (hm : ∀ t xp yp, E.matOf t xp yp ≠ none)
    (hs : ∀ A b, E.solver A b ≠ none) :
    ∀ (N : ℕ) (s : SimState nx ny np),
      ∃ sf l, runLoop E tau N s = RunResult.DONE sf l ∧ l.length = N ∧
        sf.time = s.time + (N : ℚ) * tau ∧
        sf.nAssemble = s.nAssemble + N ∧ sf.nSolve = s.nSolve + N ∧
        sf.nDecode = s.nDecode + 3 * N := by
  intro N
  induction N with
  | zero =>
    intro s
    exact ⟨s, [], rfl, rfl, by push_cast; ring, by omega, by omega, by omega⟩
  | succ k ih =>
    intro s
    obtain ⟨pr, hstep⟩ :=
      Option.isSome_iff_exists.mp (step_isSome E tau s hm hs)
    obtain ⟨s2, r⟩ := pr
    obtain ⟨sf, l, hrun, hlen, htime, hna, hns, hnd⟩ := ih s2
    obtain ⟨-, -, -, -, -, ht2, -, -, ha2, hs2, hd2⟩ :=
      step_some_spec E tau s s2 r hstep
    refine ⟨sf, r :: l, ?_, ?_, ?_, ?_, ?_, ?_⟩
    · rw [runLoop_succ_some E tau k s s2 r hstep, hrun]; rfl
    · simp [hlen]
    · rw [htime, ht2]; push_cast; ring
    · omega
    · omega
    · omega

theorem runLoop_times {nx ny np : ℕ} (E : Externals nx ny np) (tau : ℚ) :
    ∀ (N : ℕ) (s : SimState nx ny np),
      (runLoop E tau N s).log.map (fun r => r.timeAtAssemble) =
        (List.range (runLoop E tau N s).log.length).map
          (fun i : ℕ => s.time + ((i : ℚ) + 1) * tau) ∧
      (runLoop E tau N s).log.map (fun r => r.timeAtBC) =
        (runLoop E tau N s).log.map (fun r => r.timeAtAssemble) := by
  intro N
  induction N with
  | zero => intro s; exact ⟨rfl, rfl⟩
  | succ k ih =>
    intro s
    cases hstep : step E tau s with
    | none =>
      rw [runLoop_succ_none E tau k s hstep]
      exact ⟨rfl, rfl⟩
    | some pr =>
      obtain ⟨s2, r⟩ := pr
      have hlog : (runLoop E tau (k + 1) s).log =
          r :: (runLoop E tau k s2).log := by
        rw [runLoop_succ_some E tau k s s2 r hstep, consRecord_log]
      obtain ⟨hbc, hasm, -, -, -, ht2, -, -, -, -, -⟩ :=
        step_some_spec E tau s s2 r hstep
      obtain ⟨ih1, ih2⟩ := ih s2
      rw [hlog]
      constructor
      · simp only [List.map_cons, List.length_cons, List.range_succ_eq_map,
          List.map_map]
        congr 1
        · rw [hasm]; push_cast; ring
        · rw [ih1]
          have hfun : (fun i : ℕ => s2.time + ((i : ℚ) + 1) * tau) =
              ((fun i : ℕ => s.time + ((i : ℚ) + 1) * tau) ∘ Nat.succ) := by
            funext i
            simp only [Function.comp_apply, ht2]
            push_cast
            ring
          rw [hfun]
      · simp only [List.map_cons]
        rw [hbc, hasm, ih2]

theorem runLoop_anchors {nx ny np : ℕ} (E : Externals nx ny np) (tau : ℚ) :
    ∀ (N : ℕ) (s : SimState nx ny np),
      (runLoop E tau N s).log.map (fun r => r.anchorX) =
        (s.xprev :: (runLoop E tau N s).log.map (fun r => r.xsln)).take
          (runLoop E tau N s).log.length ∧
      (runLoop E tau N s).log.map (fun r => r.anchorY) =
        (s.yprev :: (runLoop E tau N s).log.map (fun r => r.ysln)).take
          (runLoop E tau N s).log.length := by
  intro N
  induction N with
  | zero => intro s; exact ⟨rfl, rfl⟩
  | succ k ih =>
    intro s
    cases hstep : step E tau s with
    | none => rw [runLoop_succ_none E tau k s hstep]; exact ⟨rfl, rfl⟩
    | some pr =>
      obtain ⟨s2, r⟩ := pr
      have hlog : (runLoop E tau (k + 1) s).log =
          r :: (runLoop E tau k s2).log := by
        rw [runLoop_succ_some E tau k s s2 r hstep, consRecord_log]
      obtain ⟨-, -, hax, hay, -, -, hx2, hy2, -, -, -⟩ :=
        step_some_spec E tau s s2 r hstep
      obtain ⟨ih1, ih2⟩ := ih s2
      rw [hlog]
      constructor
      · simp only [List.map_cons, List.length_cons, List.take_succ_cons]
        rw [hax]
        congr 1
        rw [ih1, hx2]
      · simp only [List.map_cons, List.length_cons, List.take_succ_cons]
        rw [hay]
        congr 1
        rw [ih2, hy2]

theorem rhsOf_zero {nx ny np : ℕ} (E : Externals nx ny np) (tau t : ℚ)
    (hlift : ∀ u, E.lift u = 0) :
    rhsOf E tau t (0 : Fin nx → ℚ) (0 : Fin ny → ℚ) = 0 := by
  unfold rhsOf
  simp [Matrix.mulVec_zero, hlift]

theorem decodeX_zero (nx ny np : ℕ) : @decodeX nx ny np 0 = 0 := by
  funext i; rfl

theorem decodeY_zero (nx ny np : ℕ) : @decodeY nx ny np 0 = 0 := by
  funext i; rfl

theorem decodeP_zero (nx ny np : ℕ) : @decodeP nx ny np 0 = 0 := by
  funext i; rfl

theorem runLoop_zero_log {nx ny np : ℕ} (E : Externals nx ny np) (tau : ℚ)
    (hlift : ∀ t, E.lift t = 0) (hsolve : ∀ A, E.solver A 0 = some 0) :
    ∀ (N : ℕ) (s : SimState nx ny np), s.xprev = 0 → s.yprev = 0 →
      ∀ r ∈ (runLoop E tau N s).log,
        r.rhs = 0 ∧ r.xsln = 0 ∧ r.ysln = 0 ∧ r.psln = 0 := by
  intro N
  induction N with
  | zero => intro s hx hy r hr; exact absurd hr (List.not_mem_nil r)
  | succ k ih =>
    intro s hx hy
    have hb : rhsOf E tau (s.time + tau) s.xprev s.yprev = 0 := by
      rw [hx, hy]; exact rhsOf_zero E tau (s.time + tau) hlift
    cases hA : E.matOf (s.time + tau) s.xprev s.yprev with
    | none =>
      have hstep : step E tau s = none := by simp only [step, hA]
      rw [runLoop_succ_none E tau k s hstep]
      intro r hr
      exact absurd hr (List.not_mem_nil r)
    | some A =>
      have hB : E.solver A (rhsOf E tau (s.time + tau) s.xprev s.yprev) =
          some 0 := by
        rw [hb]; exact hsolve A
      have hstep : step E tau s = some
          ({ time := s.time + tau, xprev := @decodeX nx ny np 0,
             yprev := @decodeY nx ny np 0, nAssemble := s.nAssemble + 1,
             nSolve := s.nSolve + 1, nDecode := s.nDecode + 3 },
           { timeAtBC := s.time + tau, timeAtAssemble := s.time + tau,
             anchorX := s.xprev, anchorY := s.yprev,
             rhs := rhsOf E tau (s.time + tau) s.xprev s.yprev,
             xsln := @decodeX nx ny np 0, ysln := @decodeY nx ny np 0,
             psln := @decodeP nx ny np 0 }) := by
        simp only [step, hA, hB]
      rw [runLoop_succ_some E tau k s _ _ hstep, consRecord_log]
      intro r hr
      rcases List.mem_cons.mp hr with hr | hr
      · subst hr
        exact ⟨hb, decodeX_zero nx ny np, decodeY_zero nx ny np,
          decodeP_zero nx ny np⟩
      · exact ih _ (decodeX_zero nx ny np) (decodeY_zero nx ny np) r hr

theorem runLoop_done_length {nx ny np : ℕ} (E : Externals nx ny np) (tau : ℚ) :
    ∀ (N : ℕ) (s sf : SimState nx ny np) (l : List (StepRecord nx ny np)),
      runLoop E tau N s = RunResult.DONE sf l → l.length = N := by
  intro N
  induction N with
  | zero =>
    intro s sf l h
    injection h with h1 h2
    subst h2
    rfl
  | succ k ih =>
    intro s sf l h
    cases hstep : step E tau s with
    | none =>
      rw [runLoop_succ_none E tau k s hstep] at h
      exact RunResult.noConfusion h
    | some pr =>
      obtain ⟨s2, r⟩ := pr
      rw [runLoop_succ_some E tau k s s2 r hstep] at h
      cases hrec : runLoop E tau k s2 with
      | DONE s3 l3 =>
        rw [hrec] at h
        simp only [consRecord] at h
        injection h with h1 h2
        subst h2
        simp [List.length_cons, ih s2 s3 l3 hrec]
      | FAILED t3 s3 l3 =>
        rw [hrec] at h
        simp only [consRecord] at h
        exact RunResult.noConfusion h

theorem runLoop_failed_spec {nx ny np : ℕ} (E : Externals nx ny np) (tau : ℚ) :
    ∀ (N : ℕ) (s : SimState nx ny np) (t : ℚ) (sf : SimState nx ny np)
      (l : List (StepRecord nx ny np)),
      runLoop E tau N s = RunResult.FAILED t sf l →
        t = sf.time ∧ sf.time = s.time + (l.length : ℚ) * tau ∧
        l.length < N ∧
        sf.xprev = lastD (l.map (fun r => r.xsln)) s.xprev ∧
        sf.yprev = lastD (l.map (fun r => r.ysln)) s.yprev := by
  intro N
  induction N with
  | zero => intro s t sf l h; exact RunResult.noConfusion h
  | succ k ih =>
    intro s t sf l h
    cases hstep : step E tau s with
    | none =>
      rw [runLoop_succ_none E tau k s hstep] at h
      injection h with h1 h2 h3
      subst h1
      subst h2
      subst h3
      refine ⟨rfl, by simp, Nat.succ_pos k, rfl, rfl⟩
    | some pr =>
      obtain ⟨s2, r⟩ := pr
      rw [runLoop_succ_some E tau k s s2 r hstep] at h
      cases hrec : runLoop E tau k s2 with
      | DONE s3 l3 =>
        rw [hrec] at h
        simp only [consRecord] at h
        exact RunResult.noConfusion h
      | FAILED t3 s3 l3 =>
        rw [hrec] at h
        simp only [consRecord] at h
        injection h with h1 h2 h3
        subst h1
        subst h2
        subst h3
        obtain ⟨i1, i2, i3, i4, i5⟩ := ih s2 t3 s3 l3 hrec
        obtain ⟨-, -, -, -, -, ht2, hx2, hy2, -, -, -⟩ :=
          step_some_spec E tau s s2 r hstep
        refine ⟨i1, ?_, ?_, ?_, ?_⟩
        · rw [i2, ht2]
          simp only [List.length_cons]
          push_cast
          ring
        · simp only [List.length_cons]
          omega
        · simp only [List.map_cons, lastD]
          rw [i4, hx2]
        · simp only [List.map_cons, lastD]
          rw [i5, hy2]

theorem num_time_steps_pos_eq (f tau : ℚ) (hf : 0 < f) (ht : 0 < tau) :
    num_time_steps f tau = ⌊f / tau⌋ := by
  unfold num_time_steps cIntOfDouble
  rw [if_pos (le_of_lt (div_pos hf ht))]

/-! ## Claim theorems: the time loop -/

/-- Claim C2 (amended): for every positive final time and step size, with
all-succeeding assembly and solve, the main loop executes exactly
trunc(final_time / step_size) iterations (truncation toward zero, the
behaviour of the int conversion at src/main.cpp line 197), invokes assemble
and solve exactly once per iteration, decodes exactly three fields per
iteration, and terminates with the time value within one step of the final
time. -/
theorem c2_floor_count {nx ny np : ℕ} (E : Externals nx ny np) (f tau : ℚ)
    (hf : 0 < f) (ht : 0 < tau)
    (hm : ∀ t xp yp, E.matOf t xp yp ≠ none)
    (hs : ∀ A b, E.solver A b ≠ none) :
    ∃ sf l, runFor E tau f = RunResult.DONE sf l ∧
      l.length = (num_time_steps f tau).toNat ∧
      sf.nAssemble = (num_time_steps f tau).toNat ∧
      sf.nSolve = (num_time_steps f tau).toNat ∧
      sf.nDecode = 3 * (num_time_steps f tau).toNat ∧
      sf.time = ((num_time_steps f tau).toNat : ℚ) * tau ∧
      f - tau < sf.time ∧ sf.time ≤ f := by
  obtain ⟨sf, l, hrun, hlen, htime, hna, hns, hnd⟩ :=
    runLoop_success E tau hm hs (num_time_steps f tau).toNat
      (initState nx ny np)
  simp only [initState] at htime hna hns hnd
  rw [zero_add] at htime
  have hq : (0 : ℚ) ≤ f / tau := le_of_lt (div_pos hf ht)
  have hfl : num_time_steps f tau = ⌊f / tau⌋ :=
    num_time_steps_pos_eq f tau hf ht
  have hflnn : (0 : ℤ) ≤ ⌊f / tau⌋ := Int.floor_nonneg.mpr hq
  have hcast : ((num_time_steps f tau).toNat : ℚ) = ((⌊f / tau⌋ : ℤ) : ℚ) := by
    rw [hfl]
    exact_mod_cast congrArg (fun z : ℤ => (z : ℚ)) (Int.toNat_of_nonneg hflnn)
  have h1 : ((num_time_steps f tau).toNat : ℚ) * tau ≤ f := by
    rw [hcast]
    have hle : ((⌊f / tau⌋ : ℤ) : ℚ) ≤ f / tau := Int.floor_le (f / tau)
    exact (le_div_iff₀ ht).mp hle
  have h2 : f - tau < ((num_time_steps f tau).toNat : ℚ) * tau := by
    rw [hcast]
    have hlt : f / tau < ((⌊f / tau⌋ : ℤ) : ℚ) + 1 := Int.lt_floor_add_one _
    have := (div_lt_iff₀ ht).mp hlt
    linarith
  refine ⟨sf, l, ?_, hlen, by omega, by omega, by omega, htime, ?_, ?_⟩
  · unfold runFor
    exact hrun
  · rw [htime]; exact h2
  · rw [htime]; exact h1

/-- Witness for C2 (amended): with the trivially succeeding services,
final time 3 and step size 2. -/
theorem c2_floor_count_witness :
    ∃ sf l, runFor trivialExternals 2 3 = RunResult.DONE sf l ∧
      l.length = (num_time_steps 3 2).toNat ∧
      sf.nAssemble = (num_time_steps 3 2).toNat ∧
      sf.nSolve = (num_time_steps 3 2).toNat ∧
      sf.nDecode = 3 * (num_time_steps 3 2).toNat ∧
      sf.time = ((num_time_steps 3 2).toNat : ℚ) * 2 ∧
      (3 : ℚ) - 2 < sf.time ∧ sf.time ≤ 3 :=
  c2_floor_count trivialExternals 3 2 (by norm_num) (by norm_num)
    (fun _ _ _ => by simp [trivialExternals])
    (fun _ _ => by simp [trivialExternals])

/-- Counterexample to C2 as stated: at final_time = 3 and step_size = 2 the
loop executes 1 iteration while ceil(3 / 2) = 2, so the iteration count is
the truncated quotient, not the ceiling. -/
theorem c2_ceil_counterexample :
    (runFor trivialExternals 2 3).log.length = 1 ∧ ⌈(3 : ℚ) / 2⌉ = 2 := by
  constructor
  · unfold runFor
    rw [show num_time_steps 3 2 = 1 from by
      unfold num_time_steps cIntOfDouble
      rw [if_pos (by norm_num)]
      norm_num]
    rfl
  · rw [Int.ceil_eq_iff]
    constructor <;> norm_num

/-- Claim C3: within every iteration the time value is incremented exactly
once by the fixed step, before the boundary-value recomputation and the
assembly; during iteration i (from 1) both see the same value i * tau, and
the assembly times increase strictly monotonically when tau > 0. -/
theorem c3_time_advance {nx ny np : ℕ} (E : Externals nx ny np) (tau : ℚ)
    (N : ℕ) :
    ((runLoop E tau N (initState nx ny np)).log.map
        (fun r => r.timeAtAssemble) =
      (List.range (runLoop E tau N (initState nx ny np)).log.length).map
        (fun i : ℕ => ((i : ℚ) + 1) * tau)) ∧
    ((runLoop E tau N (initState nx ny np)).log.map (fun r => r.timeAtBC) =
      (runLoop E tau N (initState nx ny np)).log.map
        (fun r => r.timeAtAssemble)) ∧
    (0 < tau →
      ((runLoop E tau N (initState nx ny np)).log.map
        (fun r => r.timeAtAssemble)).Pairwise (· < ·)) := by
  obtain ⟨h1, h2⟩ := runLoop_times E tau N (initState nx ny np)
  have h1z : (runLoop E tau N (initState nx ny np)).log.map
      (fun r => r.timeAtAssemble) =
      (List.range (runLoop E tau N (initState nx ny np)).log.length).map
        (fun i : ℕ => ((i : ℚ) + 1) * tau) := by
    rw [h1]
    have hfun : (fun i : ℕ => (initState nx ny np).time + ((i : ℚ) + 1) * tau) =
        (fun i : ℕ => ((i : ℚ) + 1) * tau) := by
      funext i
      simp [initState]
    rw [hfun]
  refine ⟨h1z, h2, ?_⟩
  intro htau
  rw [h1z, List.pairwise_map]
  refine List.Pairwise.imp ?_ (List.pairwise_lt_range _)
  intro a b hab
  have hab2 : (a : ℚ) + 1 < (b : ℚ) + 1 := by
    have hc : (a : ℚ) < (b : ℚ) := by exact_mod_cast hab
    linarith
  exact mul_lt_mul_of_pos_right hab2 htau

/-- Witness for C3: strictly increasing assembly times in a concrete
two-step run. -/
theorem c3_time_advance_witness :
    ((runLoop trivialExternals 1 2 (initState 0 0 0)).log.map
      (fun r => r.timeAtAssemble)).Pairwise (· < ·) :=
  (c3_time_advance trivialExternals 1 2).2.2 (by norm_num)

/-- Claim C4: at every iteration the convective term reads as its frozen
linearization anchor exactly the fields decoded at the previous iteration
(the all-zero rest state at the first iteration): the anchor sequence of a
run equals the decoded-solution sequence shifted by one, starting at the
zero field. -/
theorem c4_frozen_anchor {nx ny np : ℕ} (E : Externals nx ny np) (tau : ℚ)
    (N : ℕ) :
    (runLoop E tau N (initState nx ny np)).log.map (fun r => r.anchorX) =
      ((fun _ => (0 : ℚ)) :: (runLoop E tau N (initState nx ny np)).log.map
        (fun r => r.xsln)).take
        (runLoop E tau N (initState nx ny np)).log.length ∧
    (runLoop E tau N (initState nx ny np)).log.map (fun r => r.anchorY) =
      ((fun _ => (0 : ℚ)) :: (runLoop E tau N (initState nx ny np)).log.map
        (fun r => r.ysln)).take
        (runLoop E tau N (initState nx ny np)).log.length :=
  runLoop_anchors E tau N (initState nx ny np)

/-- Claim C7: with zero previous fields and all essential boundary values
zero at all times, the right-hand side assembled at step 1 is exactly zero
and every decoded field of every step is exactly zero (the zero state is a
fixed point of the step function). -/
theorem c7_zero_fixed_point {nx ny np : ℕ} (E : Externals nx ny np)
    (tau : ℚ) (N : ℕ)
    (hlift : ∀ t, E.lift t = 0) (hsolve : ∀ A, E.solver A 0 = some 0) :
    rhsOf E tau tau (0 : Fin nx → ℚ) (0 : Fin ny → ℚ) = 0 ∧
    ∀ r ∈ (runLoop E tau N (initState nx ny np)).log,
      r.rhs = 0 ∧ r.xsln = 0 ∧ r.ysln = 0 ∧ r.psln = 0 :=
  ⟨rhsOf_zero E tau tau hlift,
   runLoop_zero_log E tau hlift hsolve N (initState nx ny np) rfl rfl⟩

/-- Witness for C7: the zero fixed point on a concrete two-step run with
zero boundary data and an exact solver. -/
theorem c7_zero_fixed_point_witness :
    rhsOf trivialExternals 1 1 (0 : Fin 0 → ℚ) (0 : Fin 0 → ℚ) = 0 ∧
    ∀ r ∈ (runLoop trivialExternals 1 2 (initState 0 0 0)).log,
      r.rhs = 0 ∧ r.xsln = 0 ∧ r.ysln = 0 ∧ r.psln = 0 :=
  c7_zero_fixed_point trivialExternals 1 2 (fun _ => rfl) (fun _ => rfl)

/-- Claim C8: the assembly is a deterministic function of the mesh-level
services, the time and the previous-step fields: two runs of the assembly
on states agreeing on those inputs produce identical CSC arrays (column
pointers, row indices, values) and identical right-hand sides. -/
theorem c8_deterministic_assembly {nx ny np : ℕ} (E : Externals nx ny np)
    (tau : ℚ) (s1 s2 : SimState nx ny np) (ht : s1.time = s2.time)
    (hx : s1.xprev = s2.xprev) (hy : s1.yprev = s2.yprev) :
    assembleCSC E tau s1 = assembleCSC E tau s2 := by
  unfold assembleCSC rhsOf
  rw [ht, hx, hy]

/-- Witness for C8: two states with identical time and previous fields but
different counters give identical assembly output. -/
theorem c8_deterministic_assembly_witness :
    assembleCSC trivialExternals 1 stateA = assembleCSC trivialExternals 1 stateB :=
  c8_deterministic_assembly trivialExternals 1 stateA stateB rfl rfl rfl

/-- Claim C9: if assembly or solve fails at some iteration the run ends
FAILED (never DONE, which requires the full iteration count), the loop
aborts without retry, the reported time is the last successfully completed
time (the number of completed steps times the step size), and the
previous-step fields are the last successfully decoded fields (or the
initial zero fields), never a partial solution. -/
theorem c9_failed_run {nx ny np : ℕ} (E : Externals nx ny np) (tau : ℚ)
    (N : ℕ) :
    (∀ t sf l,
        runLoop E tau N (initState nx ny np) = RunResult.FAILED t sf l →
        t = sf.time ∧ sf.time = (l.length : ℚ) * tau ∧ l.length < N ∧
        sf.xprev = lastD (l.map (fun r => r.xsln)) (fun _ => 0) ∧
        sf.yprev = lastD (l.map (fun r => r.ysln)) (fun _ => 0)) ∧
    (∀ sf l, runLoop E tau N (initState nx ny np) = RunResult.DONE sf l →
        l.length = N) := by
  constructor
  · intro t sf l h
    obtain ⟨i1, i2, i3, i4, i5⟩ :=
      runLoop_failed_spec E tau N (initState nx ny np) t sf l h
    refine ⟨i1, ?_, i3, i4, i5⟩
    rw [i2]
    simp [initState]
  · intro sf l h
    exact runLoop_done_length E tau N (initState nx ny np) sf l h

/-- Witness for C9: a run whose first solve fails ends FAILED immediately,
reporting time 0 with the initial zero fields intact. -/
theorem c9_failed_run_witness :
    (0 : ℚ) = (initState 0 0 0).time ∧
    (initState 0 0 0).time =
      ((([] : List (StepRecord 0 0 0)).length : ℚ)) * 1 ∧
    ([] : List (StepRecord 0 0 0)).length < 3 ∧
    (initState 0 0 0).xprev =
      lastD (([] : List (StepRecord 0 0 0)).map (fun r => r.xsln))
        (fun _ => 0) ∧
    (initState 0 0 0).yprev =
      lastD (([] : List (StepRecord 0 0 0)).map (fun r => r.ysln))
        (fun _ => 0) :=
  (c9_failed_run failingExternals 1 3).1 0 (initState 0 0 0) [] rfl

end NavierStokes
